import Mathlib

/-!
Verification of the opinion-panel auto-clearing engine.

Shallow embedding of `AutoClearManager.js` (tracked-order registry, state
machine, clearing-price calculator, persistence) and of the snapshot differ
`detectOrderChanges` in `tradingDashboard.js`.  JavaScript numbers are
modelled as rationals (`ℚ`); `Math.round(x*1000)/1000` and `toFixed(4)`
are modelled exactly (round half toward +∞, as ECMAScript specifies for
positive arguments and for `toFixed` ties).
-/

namespace OpinionPanel

/-- One level of the order book: `{price, amount}`. -/
structure PriceLevel where
  price : ℚ
  amount : ℚ
deriving DecidableEq

/-- The order book handed to `calculateClearPrice`: `{bids, asks}`,
bids sorted descending, asks ascending (sortedness is the caller's contract
and is not needed by the calculator). -/
structure OrderBook where
  bids : List PriceLevel
  asks : List PriceLevel
deriving DecidableEq

/-- `Math.round(q * 10^d) / 10^d`: round to `d` decimal places, halves toward
`+∞` (ECMAScript `Math.round` semantics, and `toFixed`'s tie-break to the
larger candidate). -/
def roundTo (d : Nat) (q : ℚ) : ℚ :=
  (⌊q * (10 ^ d : ℚ) + 1/2⌋ : ℤ) / (10 ^ d : ℚ)

/-- `AutoClearManager.calculateClearPrice` (AutoClearManager.js:267-303).
Returns `none` for the JS `null` "no safe price" signal. -/
def calculateClearPrice (costPrice : ℚ) (book : OrderBook) : Option ℚ :=
  match book.bids, book.asks with
  | [], _ => none
  | _ :: _, [] => none
  | bid0 :: _, ask0 :: _ =>
    let bestBid := bid0.price
    let bestAsk := ask0.price
    let spread := bestAsk - bestBid
    let targetPrice := if spread > 1/10 then bestAsk - 1/10 else bestAsk
    let targetPrice := max targetPrice costPrice
    if targetPrice ≤ bestBid then none
    else some (roundTo 3 targetPrice)

/-- Modelled from the spec (§4.3 Clearing Price Calculator, steps 1-6):
the reference algorithm as the spec words it, used only to compare against
the source-derived `calculateClearPrice`. -/
def calculateClearPriceSpec (costPrice : ℚ) (book : OrderBook) : Option ℚ :=
  match book.bids.head?, book.asks.head? with
  | some bid, some ask =>
    let spread := ask.price - bid.price
    let target := if spread > 1/10 then ask.price - 1/10 else ask.price
    let target := max target costPrice
    if target ≤ bid.price then none else some (roundTo 3 target)
  | _, _ => none

/-- Lifecycle states of a tracked order
(`pending | filled | clearing | cleared | error`). -/
inductive Status
  | pending
  | filled
  | clearing
  | cleared
  | error
deriving DecidableEq

/-- One tracked order, as built by `trackOrder` and mutated by
`updateOrderStatus` / `createReverseClearOrder`.  Fields that the JS code adds
only later (`filledAt`, `filledShares`, …) are `Option`s that start `none`. -/
structure OrderInfo where
  orderId : Nat
  topicId : Nat
  position : String
  side : Nat
  price : ℚ
  amount : ℚ
  trackedAt : String
  status : Status
  errorMessage : Option String
  reverseOrderId : Option Nat
  filledAt : Option String
  filledShares : Option ℚ
  filledUsdt : Option ℚ
  reversePrice : Option ℚ
  reverseShares : Option ℚ
  clearedAt : Option String
deriving DecidableEq

/-- The parameters of `trackOrder` (with `price`/`amount` already
`parseFloat`ed). -/
structure TrackParams where
  orderId : Nat
  topicId : Nat
  position : String
  side : Nat
  price : ℚ
  amount : ℚ
deriving DecidableEq

/-- The fresh `pending` record `trackOrder` builds (AutoClearManager.js:96-107). -/
def mkTracked (p : TrackParams) (now : String) : OrderInfo :=
  { orderId := p.orderId, topicId := p.topicId, position := p.position,
    side := p.side, price := p.price, amount := p.amount,
    trackedAt := now, status := .pending, errorMessage := none,
    reverseOrderId := none, filledAt := none, filledShares := none,
    filledUsdt := none, reversePrice := none, reverseShares := none,
    clearedAt := none }

/-- JS `Map.set`: replace in place if the key exists, else append. -/
def setEntry {α : Type} : List (Nat × α) → Nat → α → List (Nat × α)
  | [], k, v => [(k, v)]
  | (k', v') :: rest, k, v =>
    if k' = k then (k, v) :: rest else (k', v') :: setEntry rest k v

/-- JS `Map.get` / `Map.has`. -/
def lookupEntry {α : Type} : List (Nat × α) → Nat → Option α
  | [], _ => none
  | (k', v') :: rest, k => if k' = k then some v' else lookupEntry rest k

/-- The in-memory `trackedOrders` map, in JS `Map` insertion order. -/
abbrev Registry := List (Nat × OrderInfo)

/-- `AutoClearManager.trackOrder` (AutoClearManager.js:93-115): builds a fresh
`pending` record, stores it under `orderId` (unconditionally — `Map.set`
replaces any existing entry), and returns it. -/
def trackOrder (m : Registry) (p : TrackParams) (now : String) :
    OrderInfo × Registry :=
  let info := mkTracked p now
  (info, setEntry m p.orderId info)

/-- A closed order from `getClosedOrders`, with the `filled` string
`"x/y"` already split and `parseFloat`ed into `filledUsdt`/`totalUsdt`. -/
structure ClosedOrder where
  orderId : Nat
  status : Nat
  filledUsdt : ℚ
  totalUsdt : ℚ
deriving DecidableEq

/-- The order book as fetched inside `createReverseClearOrder`: the JS object
may carry an `error` field or lack `bids`/`asks` (AutoClearManager.js:222). -/
structure FetchedBook where
  err : Option String
  bids : Option (List PriceLevel)
  asks : Option (List PriceLevel)

/-- Results of the external calls one reverse-clearing attempt performs:
the clock, the topic/book fetch (`.error` = the awaited call threw), and the
`sdk.sellByTopic` submission (`.ok` carries
`result.result?.orderData?.orderId`). -/
structure Env where
  now : String
  bookResult : Except String FetchedBook
  sellResult : Except String (Option Nat)

/-- The `!filledShares || filledShares <= 0` guard
(AutoClearManager.js:208). -/
def sharesInvalid (o : OrderInfo) : Bool :=
  match o.filledShares with
  | none => true
  | some s => s ≤ 0

/-- The `catch` branch: set `status = 'error'` and `errorMessage`, touching
nothing else (AutoClearManager.js:253-254). -/
def errorOut (o : OrderInfo) (msg : String) : OrderInfo :=
  { o with status := .error, errorMessage := some msg }

/-- `AutoClearManager.createReverseClearOrder` (AutoClearManager.js:192-258)
as a pure function on one record: returns the final record together with the
chronological list of statuses assigned to the record during the call.  The
code first assigns `status = 'clearing'` (recorded as the head of the trace;
the final record overwrites it with the terminal status, so the intermediate
`clearing` record is elided from the returned record), then either marks a
sell-side order `cleared`, or — for a buy — validates `filledShares`, fetches
the book, prices, submits, and ends `cleared` on success and `error` (via the
`catch`) on any failure. -/
def createReverseClearOrder (env : Env) (o : OrderInfo) :
    OrderInfo × List Status :=
  if o.side ≠ 1 then
    ({ o with status := .cleared }, [.clearing, .cleared])
  else if sharesInvalid o then
    (errorOut o "成交数量无效", [.clearing, .error])
  else
    match env.bookResult with
    | .error e => (errorOut o e, [.clearing, .error])
    | .ok fb =>
      if fb.err.isSome || fb.bids.isNone || fb.asks.isNone then
        (errorOut o ("无法获取订单簿: " ++ fb.err.getD "数据缺失"), [.clearing, .error])
      else
        match calculateClearPrice (o.price / 100) ⟨fb.bids.getD [], fb.asks.getD []⟩ with
        | none => (errorOut o "无法计算安全的清理价格（盘口异常）", [.clearing, .error])
        | some clearPrice =>
          match env.sellResult with
          | .error e => (errorOut o e, [.clearing, .error])
          | .ok rid =>
            ({ o with status := .cleared, reverseOrderId := rid,
                      reversePrice := some clearPrice,
                      reverseShares := o.filledShares,
                      clearedAt := some env.now }, [.clearing, .cleared])

/-- The mutation `updateOrderStatus` applies to a matched, fully filled
tracked order before invoking clearing (AutoClearManager.js:162-168):
`shares = filledUsdt / (price / 100)`. -/
def markFilled (o : OrderInfo) (filledUsdt : ℚ) (now : String) : OrderInfo :=
  { o with status := .filled, filledAt := some now,
           filledShares := some (filledUsdt / (o.price / 100)),
           filledUsdt := some filledUsdt }

/-- One iteration of the `updateOrderStatus` loop (AutoClearManager.js:134-180)
on a single closed order: skip untracked / non-`pending` / non-`status-2`
orders; otherwise compare `filledUsdt` to `totalUsdt * 0.999`, and on a full
fill mark the order `filled` and run `createReverseClearOrder`.  Also returns
the list of `(orderId, status)` assignments made. -/
def processClosedOrder (env : Env) (m : Registry) (c : ClosedOrder) :
    Registry × List (Nat × Status) :=
  match lookupEntry m c.orderId with
  | none => (m, [])
  | some o =>
    if o.status ≠ .pending then (m, [])
    else if c.status = 2 then
      if c.filledUsdt ≥ c.totalUsdt * (999/1000) then
        let o1 := markFilled o c.filledUsdt env.now
        let res := createReverseClearOrder env o1
        (setEntry m c.orderId res.1,
          (c.orderId, .filled) :: res.2.map (fun s => (c.orderId, s)))
      else (m, [])
    else (m, [])

/-- `AutoClearManager.updateOrderStatus` (AutoClearManager.js:123-185): fold
the loop body over the closed-order list; each closed order carries the `Env`
its (possible) reverse-clearing attempt would see. -/
def updateOrderStatus (m : Registry) :
    List (ClosedOrder × Env) → Registry × List (Nat × Status)
  | [] => (m, [])
  | ce :: rest =>
    let r1 := processClosedOrder ce.2 m ce.1
    let r2 := updateOrderStatus r1.1 rest
    (r2.1, r1.2 ++ r2.2)

/-- The public registry operations named by the spec's state-machine claim:
`trackOrder`, `updateOrderStatus`, `createReverseClearOrder` (on the tracked
record with the given id), and the read operations (`getTrackedOrders`,
`getOrdersByStatus`, `getStats` — no state change). -/
inductive RegOp
  | track (p : TrackParams) (now : String)
  | update (cs : List (ClosedOrder × Env))
  | reverse (orderId : Nat) (env : Env)
  | read

/-- Apply one public operation; also emit the `(orderId, status)` assignments
it performs (`trackOrder` assigns the initial `pending`). -/
def applyOp (m : Registry) : RegOp → Registry × List (Nat × Status)
  | .track p now => ((trackOrder m p now).2, [(p.orderId, .pending)])
  | .update cs => updateOrderStatus m cs
  | .reverse oid env =>
    match lookupEntry m oid with
    | none => (m, [])
    | some o =>
      let res := createReverseClearOrder env o
      (setEntry m oid res.1, res.2.map (fun s => (oid, s)))
  | .read => (m, [])

/-- Run a sequence of public operations, concatenating the assignment trace. -/
def runOps (m : Registry) : List RegOp → Registry × List (Nat × Status)
  | [] => (m, [])
  | op :: rest =>
    let r1 := applyOp m op
    let r2 := runOps r1.1 rest
    (r2.1, r1.2 ++ r2.2)

/-- The statuses assigned to one order, in order, along a trace. -/
def statusSeq (id : Nat) (tr : List (Nat × Status)) : List Status :=
  tr.filterMap (fun e => if e.1 = id then some e.2 else none)

/-- Position of a status in the forward chain
`pending → filled → clearing → {cleared, error}`. -/
def rank : Status → Nat
  | .pending => 0
  | .filled => 1
  | .clearing => 2
  | .cleared => 3
  | .error => 3

/-- Every adjacent pair of assigned statuses moves (weakly) forward. -/
def forwardB : List Status → Bool
  | [] => true
  | [_] => true
  | a :: b :: rest => decide (rank a ≤ rank b) && forwardB (b :: rest)

/-- `cleared` and `error` are terminal: they may appear only as the last
assigned status. -/
def terminalLastB : List Status → Bool
  | [] => true
  | [_] => true
  | a :: b :: rest =>
    (decide (a ≠ .cleared) && decide (a ≠ .error)) && terminalLastB (b :: rest)

/-- Helper for `clearedAfterClearingB`: `seen` records whether `clearing`
has already occurred. -/
def clearedAfterClearingAux : Bool → List Status → Bool
  | _, [] => true
  | seen, s :: rest =>
    (if s = .cleared then seen else true) &&
      clearedAfterClearingAux (seen || decide (s = .clearing)) rest

/-- Every `cleared` assignment is preceded by a `clearing` assignment. -/
def clearedAfterClearingB (l : List Status) : Bool :=
  clearedAfterClearingAux false l

/-- The spec's full state-machine discipline for one order's status history. -/
def goodSeqB (l : List Status) : Bool :=
  forwardB l && terminalLastB l && clearedAfterClearingB l

/-- Well-formedness of an operation sequence for the amended claim C2:
`trackOrder` is only called with an orderId not currently tracked, and
`createReverseClearOrder` is only invoked directly on a tracked order whose
status is `filled` (as `updateOrderStatus` does). -/
def wfOpsB (m : Registry) : List RegOp → Bool
  | [] => true
  | op :: rest =>
    (match op with
     | .track p _ => (lookupEntry m p.orderId).isNone
     | .reverse oid _ =>
       (match lookupEntry m oid with
        | none => true
        | some o => decide (o.status = .filled))
     | _ => true) && wfOpsB (applyOp m op).1 rest

/-- Key order used by JS object property enumeration: ascending `orderId`. -/
def keyLe (a b : Nat × OrderInfo) : Prop := a.1 ≤ b.1

instance : DecidableRel keyLe := fun a b => inferInstanceAs (Decidable (a.1 ≤ b.1))

instance : IsTotal (Nat × OrderInfo) keyLe := ⟨fun a b => Nat.le_total a.1 b.1⟩

instance : IsTrans (Nat × OrderInfo) keyLe := ⟨fun _ _ _ h1 h2 => Nat.le_trans h1 h2⟩

/-- Entries in the enumeration order of `Object.fromEntries(map)`: JS objects
list integer-like property keys in ascending numeric order. -/
def sortByKey (m : Registry) : Registry := List.insertionSort keyLe m

/-- The JSON document written by `save` (AutoClearManager.js:72-80):
`JSON.stringify(Object.fromEntries(map))` — entries in ascending-orderId
order, keyed by the decimal numeral string `String(orderId)`, which is
modelled by its digit sequence `Nat.digits 10 orderId`.  Field values
round-trip JSON exactly (numbers are IEEE doubles, which
stringify/parse losslessly), so the entry payload is the record itself. -/
def saveDoc (m : Registry) : List (List Nat × OrderInfo) :=
  (sortByKey m).map (fun kv => (Nat.digits 10 kv.1, kv.2))

/-- The restore loop of `initialize` (AutoClearManager.js:51-53):
`trackedOrders.set(parseInt(orderId), orderInfo)` over the parsed document;
`parseInt` of a decimal numeral string is `Nat.ofDigits 10`. -/
def loadDoc (doc : List (List Nat × OrderInfo)) : Registry :=
  doc.foldl (fun acc kv => setEntry acc (Nat.ofDigits 10 kv.1) kv.2) []

/-- `createReverseClearOrder` invoked on the tracked record with the given id,
followed by the `finally { await this.save() }` (AutoClearManager.js:255-257):
returns the new registry together with the persisted document. -/
def reverseClearOp (env : Env) (m : Registry) (oid : Nat) :
    Registry × List (List Nat × OrderInfo) :=
  match lookupEntry m oid with
  | none => (m, saveDoc m)
  | some o =>
    let m' := setEntry m oid (createReverseClearOrder env o).1
    (m', saveDoc m')

/-- Witness input: a tracked sell order (side 2), pending. -/
def wOrder : OrderInfo := mkTracked ⟨5, 7, "YES", 2, 90, 10⟩ "t0"

/-- Witness input: an environment whose external calls all fail. -/
def wEnv : Env := ⟨"t1", .error "offline", .error "offline"⟩

/-- Witness input: a fully filled closed order (`filled = "10/10"`). -/
def wClosed : ClosedOrder := ⟨5, 2, 10, 10⟩

/-- Witness input: a tracked buy order that was never marked filled, so its
`filledShares` is `none` and a direct clearing attempt fails. -/
def wFailOrder : OrderInfo := mkTracked ⟨3, 7, "NO", 1, 80, 5⟩ "t0"

/-- A run that tracks order 1, sees it fully fill (and auto-clear), and then
tracks the same orderId again — resetting the cleared order to `pending`. -/
def cexOps : List RegOp :=
  [.track ⟨1, 7, "YES", 2, 50, 10⟩ "t0",
   .update [(⟨1, 2, 10, 10⟩, wEnv)],
   .track ⟨1, 7, "YES", 2, 50, 10⟩ "t2"]

/-- A well-formed run: track a fresh order, then reconcile its full fill. -/
def wfOps2 : List RegOp :=
  [.track ⟨1, 7, "YES", 2, 50, 10⟩ "t0",
   .update [(⟨1, 2, 10, 10⟩, wEnv)]]

/-- One open order of a snapshot (`{orderId, side, outcome, price, amount,
filled}`); a missing `filled` field (JS `prevOrder.filled || 0` falls back to
0) is `none`. -/
structure OpenOrder where
  orderId : Nat
  side : Nat
  outcome : String
  price : ℚ
  amount : ℚ
  filled : Option ℚ
deriving DecidableEq

/-- The events `detectOrderChanges` emits via `addEvent`
(payloads beyond the orderId / fill delta are presentation data). -/
inductive OrderEvent
  | order_filled (orderId : Nat)
  | order_removed (orderId : Nat)
  | order_partially_filled (orderId : Nat) (delta : ℚ)
  | order_created (orderId : Nat)
deriving DecidableEq

/-- Classification of a removal candidate (tradingDashboard.js:847-866):
`filled` and `amount` are first formatted with `toFixed(4)` and re-parsed, so
the comparison `filled ≥ amount * 0.99` sees values rounded to 4 decimal
places (ECMAScript `toFixed`: nearest, ties to the larger candidate). -/
def classifyRemoval (id : Nat) (o : OpenOrder) : OrderEvent :=
  let filled := roundTo 4 (o.filled.getD 0)
  let amount := roundTo 4 o.amount
  if filled ≥ amount * (99/100) then .order_filled id else .order_removed id

/-- `currentOrdersMap` construction (tradingDashboard.js:839-842): JS `Map`
keyed by `orderId`, insertion-ordered. -/
def buildOrdersMap (l : List OpenOrder) : List (Nat × OpenOrder) :=
  l.foldl (fun mp o => setEntry mp o.orderId o) []

/-- `detectOrderChanges` (tradingDashboard.js:836-929) as a pure function of
the previous map and the current list: removal candidates are classified by
`classifyRemoval`; orders present in both with `currentFilled > previousFilled`
yield a partial-fill event with the delta; orders only in the current map
yield a creation event; the current map becomes the next previous map. -/
def detectOrderChanges (prevMap : List (Nat × OpenOrder))
    (cur : List OpenOrder) : List OrderEvent × List (Nat × OpenOrder) :=
  let curMap := buildOrdersMap cur
  (prevMap.filterMap (fun kv =>
      match lookupEntry curMap kv.1 with
      | none => some (classifyRemoval kv.1 kv.2)
      | some c =>
        let prevFilled := kv.2.filled.getD 0
        let curFilled := c.filled.getD 0
        if curFilled > prevFilled then
          some (.order_partially_filled kv.1 (curFilled - prevFilled))
        else none)
    ++ curMap.filterMap (fun kv =>
      if (lookupEntry prevMap kv.1).isSome then none
      else some (.order_created kv.1)),
   curMap)

/-- Invariant tying an order's stored status to its full assignment history:
orders at rest are `pending`, `cleared` or `error`, and their history is one
of the four prefixes of the state machine's only paths. -/
def InvAt (tr : List (Nat × Status)) (id : Nat) : Option OrderInfo → Prop
  | none => statusSeq id tr = []
  | some o =>
      (o.status = .pending ∧ statusSeq id tr = [.pending])
    ∨ (o.status = .cleared ∧
        statusSeq id tr = [.pending, .filled, .clearing, .cleared])
    ∨ (o.status = .error ∧
        statusSeq id tr = [.pending, .filled, .clearing, .error])

/-- The invariant over the whole registry. -/
def Inv (m : Registry) (tr : List (Nat × Status)) : Prop :=
  ∀ id, InvAt tr id (lookupEntry m id)

/-- Rounding to 3 decimals lowers a rational by strictly less than `1/2000`. -/
theorem roundTo3_gt_sub (t : ℚ) : t - 1/2000 < roundTo 3 t := by
  have h : t * 1000 + 1/2 - 1 < ((⌊t * 1000 + 1/2⌋ : ℤ) : ℚ) := Int.sub_one_lt_floor _
  unfold roundTo
  rw [show ((10:ℚ) ^ 3) = 1000 by norm_num, lt_div_iff₀ (by norm_num : (0:ℚ) < 1000)]
  linarith

/-- C6: For every cost price and every order book, `calculateClearPrice` agrees
with the spec's step-1-to-6 reference algorithm: no-safe-price on an empty side,
`target = spread > 0.1 ? bestAsk - 0.1 : bestAsk`, cost floor `max target cost`,
fail when `target ≤ bestBid`, else round to 3 decimal places. -/
theorem calculateClearPrice_refines_spec (c : ℚ) (b : OrderBook) :
    calculateClearPrice c b = calculateClearPriceSpec c b := by
  obtain ⟨bids, asks⟩ := b
  cases bids <;> cases asks <;> rfl

/-- C4 counterexample: with cost price 0.92, best bid 0.93, best ask 0.94, the
code does NOT return the no-safe-price signal (the spread 0.01 is ≤ 0.1, so the
target is the best ask 0.94, which survives the cost floor and the
`target ≤ bestBid` check). -/
theorem scenario_092_counterexample :
    calculateClearPrice (92/100) ⟨[⟨93/100, 1⟩], [⟨94/100, 1⟩]⟩ ≠ none := by
  have h : calculateClearPrice (92/100) ⟨[⟨93/100, 1⟩], [⟨94/100, 1⟩]⟩ = some (94/100) := by
    norm_num [calculateClearPrice, roundTo]
  simp [h]

/-- C4 amended: with cost price 0.92, best bid 0.93, best ask 0.94,
`calculateClearPrice` returns 0.94: spread 0.01 ≤ 0.1 gives target = bestAsk,
the cost floor keeps it at 0.94 > bestBid 0.93, rounding leaves 0.940. -/
theorem scenario_092_amended :
    calculateClearPrice (92/100) ⟨[⟨93/100, 1⟩], [⟨94/100, 1⟩]⟩ = some (94/100) := by
  norm_num [calculateClearPrice, roundTo]

/-- C1 counterexample: cost price 0.9214, best bid 0.9212, best ask 1.0213.
The spread is 0.1001 > 0.1, so the target is 0.9213, lifted to 0.9214 by the
cost floor; 0.9214 > 0.9212 passes the safety check, but the final rounding to
3 decimal places returns 0.921, which is ≤ the best bid and < the cost price —
refuting the claim that the returned price is > bestBid and ≥ costPrice. -/
theorem clearPrice_rounding_counterexample :
    calculateClearPrice (9214/10000) ⟨[⟨9212/10000, 1⟩], [⟨10213/10000, 1⟩]⟩
        = some (921/1000)
      ∧ ¬ ((921/1000 : ℚ) > 9212/10000) ∧ ¬ ((921/1000 : ℚ) ≥ 9214/10000) := by
  refine ⟨by norm_num [calculateClearPrice, roundTo], by norm_num, by norm_num⟩

/-- C1 amended: whenever `calculateClearPrice` returns a price, that price is
within 1/2000 below the pre-rounding target, which itself is strictly above the
best bid and at least the cost price; hence the returned price is strictly
greater than `bestBid - 0.0005` and at least `costPrice - 0.0005`.  (The
unrounded guarantee is strict; only the final 3-decimal rounding can dip below
`bestBid`/`costPrice`, by less than half a price tick.) -/
theorem clearPrice_above_bid_and_cost_amended (cost : ℚ) (book : OrderBook)
    (p : ℚ) (bid0 : PriceLevel) (rest : List PriceLevel)
    (hb : book.bids = bid0 :: rest)
    (h : calculateClearPrice cost book = some p) :
    bid0.price - 1/2000 < p ∧ cost - 1/2000 ≤ p := by
  obtain ⟨bids, asks⟩ := book
  simp only at hb
  subst hb
  cases asks with
  | nil => simp [calculateClearPrice] at h
  | cons ask0 asksTail =>
    simp only [calculateClearPrice] at h
    by_cases hc :
        max (if ask0.price - bid0.price > 1/10 then ask0.price - 1/10 else ask0.price) cost
          ≤ bid0.price
    · rw [if_pos hc] at h
      exact absurd h (by simp)
    · rw [if_neg hc] at h
      have hp :
          roundTo 3
              (max (if ask0.price - bid0.price > 1/10 then ask0.price - 1/10 else ask0.price)
                cost) = p := by
        injection h
      have h1 := lt_of_not_le hc
      have h2 : cost ≤
          max (if ask0.price - bid0.price > 1/10 then ask0.price - 1/10 else ask0.price) cost :=
        le_max_right _ _
      have h3 := roundTo3_gt_sub
        (max (if ask0.price - bid0.price > 1/10 then ask0.price - 1/10 else ask0.price) cost)
      constructor <;> linarith

/-- C1 amended, witness: cost 0.90, book bestBid 0.91 / bestAsk 0.93 yields the
price 0.93, which is above both bounds. -/
theorem clearPrice_above_bid_and_cost_witness :
    (91/100 : ℚ) - 1/2000 < 93/100 ∧ (90/100 : ℚ) - 1/2000 ≤ 93/100 :=
  clearPrice_above_bid_and_cost_amended (90/100) ⟨[⟨91/100, 1⟩], [⟨93/100, 1⟩]⟩
    (93/100) ⟨91/100, 1⟩ [] rfl (by norm_num [calculateClearPrice, roundTo])

theorem lookupEntry_setEntry_self {α : Type} (m : List (Nat × α)) (k : Nat) (v : α) :
    lookupEntry (setEntry m k v) k = some v := by
  induction m with
  | nil => simp [setEntry, lookupEntry]
  | cons kv rest ih =>
    obtain ⟨k', v'⟩ := kv
    by_cases h : k' = k
    · simp [setEntry, lookupEntry, h]
    · simp [setEntry, lookupEntry, h, ih]

theorem lookupEntry_setEntry_ne {α : Type} (m : List (Nat × α)) (k j : Nat) (v : α)
    (h : j ≠ k) : lookupEntry (setEntry m k v) j = lookupEntry m j := by
  induction m with
  | nil => simp [setEntry, lookupEntry, Ne.symm h]
  | cons kv rest ih =>
    obtain ⟨k', v'⟩ := kv
    by_cases h' : k' = k
    · subst h'
      simp [setEntry, lookupEntry, Ne.symm h]
    · by_cases h'' : k' = j <;> simp [setEntry, lookupEntry, h', h'', h, ih]

theorem statusSeq_append (id : Nat) (t1 t2 : List (Nat × Status)) :
    statusSeq id (t1 ++ t2) = statusSeq id t1 ++ statusSeq id t2 := by
  simp [statusSeq, List.filterMap_append]

theorem statusSeq_cons_self (id : Nat) (s : Status) (tr : List (Nat × Status)) :
    statusSeq id ((id, s) :: tr) = s :: statusSeq id tr := by
  simp [statusSeq]

theorem statusSeq_cons_ne (id j : Nat) (s : Status) (tr : List (Nat × Status))
    (h : j ≠ id) : statusSeq id ((j, s) :: tr) = statusSeq id tr := by
  simp [statusSeq, h]

theorem statusSeq_map_self (id : Nat) (l : List Status) :
    statusSeq id (l.map (fun s => (id, s))) = l := by
  induction l with
  | nil => rfl
  | cons s rest ih => rw [List.map_cons, statusSeq_cons_self, ih]

theorem statusSeq_map_ne (id j : Nat) (l : List Status) (h : j ≠ id) :
    statusSeq id (l.map (fun s => (j, s))) = [] := by
  induction l with
  | nil => rfl
  | cons s rest ih => rw [List.map_cons, statusSeq_cons_ne _ _ _ _ h, ih]

/-- `createReverseClearOrder` either fails — producing exactly `errorOut` of
the record, i.e. only `status` and `errorMessage` change — or succeeds with
final status `cleared`; the assignment trace is always
`[clearing, finalStatus]`. -/
theorem reverse_shape (env : Env) (o : OrderInfo) :
    (∃ msg, createReverseClearOrder env o = (errorOut o msg, [.clearing, .error]))
    ∨ (∃ o', createReverseClearOrder env o = (o', [.clearing, .cleared])
        ∧ o'.status = .cleared) := by
  unfold createReverseClearOrder
  repeat' split
  all_goals first
    | (left; exact ⟨_, rfl⟩)
    | (right; exact ⟨_, rfl, rfl⟩)

/-- C3 counterexample: with order 1 already tracked (here in state `cleared`),
calling `trackOrder` again for orderId 1 does not return the stored record and
replaces it by a fresh `pending` one — creation is not idempotent. -/
theorem trackOrder_idempotent_counterexample :
    (trackOrder [(1, { mkTracked ⟨1, 7, "YES", 1, 90, 10⟩ "t0" with status := .cleared })]
        ⟨1, 7, "YES", 1, 90, 10⟩ "t1").1
      ≠ { mkTracked ⟨1, 7, "YES", 1, 90, 10⟩ "t0" with status := .cleared }
    ∧ lookupEntry
        (trackOrder [(1, { mkTracked ⟨1, 7, "YES", 1, 90, 10⟩ "t0" with status := .cleared })]
          ⟨1, 7, "YES", 1, 90, 10⟩ "t1").2 1
      ≠ some { mkTracked ⟨1, 7, "YES", 1, 90, 10⟩ "t0" with status := .cleared } := by
  constructor
  · intro h
    have := congrArg OrderInfo.status h
    simp [trackOrder, mkTracked] at this
  · intro h
    rw [show (trackOrder [(1, { mkTracked ⟨1, 7, "YES", 1, 90, 10⟩ "t0" with status := .cleared })]
          ⟨1, 7, "YES", 1, 90, 10⟩ "t1").2
        = [(1, mkTracked ⟨1, 7, "YES", 1, 90, 10⟩ "t1")] from rfl] at h
    simp [lookupEntry, mkTracked] at h

/-- C3 amended: `trackOrder` always creates a fresh `pending` record, stores it
under `orderId` — overwriting any previously tracked record with that id
(last write wins) — and returns the new record, for any prior registry
contents. -/
theorem trackOrder_overwrites_amended (m : Registry) (p : TrackParams) (now : String) :
    (trackOrder m p now).1 = mkTracked p now
    ∧ lookupEntry (trackOrder m p now).2 p.orderId = some (mkTracked p now)
    ∧ (mkTracked p now).status = .pending := by
  exact ⟨rfl, lookupEntry_setEntry_self m p.orderId (mkTracked p now), rfl⟩

/-- C10: if the tracked order's (percentage-scale) cost price and the parsed
`filledUsdt` are both strictly positive, the shares computed by
`updateOrderStatus`'s fill branch, `filledUsdt / (costPrice / 100)`, are
strictly positive, so the `成交数量无效` (invalid filled amount) guard of
`createReverseClearOrder` — `sharesInvalid` — does not fire on the marked
record. -/
theorem filledShares_positive (o : OrderInfo) (fu : ℚ) (now : String)
    (hp : 0 < o.price) (hf : 0 < fu) :
    (markFilled o fu now).filledShares = some (fu / (o.price / 100))
    ∧ 0 < fu / (o.price / 100)
    ∧ sharesInvalid (markFilled o fu now) = false := by
  have hpos : 0 < fu / (o.price / 100) := div_pos hf (by positivity)
  refine ⟨rfl, hpos, ?_⟩
  simp [sharesInvalid, markFilled]
  linarith

/-- C10 witness: a buy at cost 90.00 (percentage scale) with 9 USDT filled
gives 10 shares, and the invalid-amount guard does not fire. -/
theorem filledShares_positive_witness :
    (markFilled (mkTracked ⟨2, 7, "YES", 1, 90, 10⟩ "t0") 9 "t1").filledShares
        = some (9 / (90 / 100))
    ∧ (0:ℚ) < 9 / (90 / 100)
    ∧ sharesInvalid (markFilled (mkTracked ⟨2, 7, "YES", 1, 90, 10⟩ "t0") 9 "t1") = false :=
  filledShares_positive (mkTracked ⟨2, 7, "YES", 1, 90, 10⟩ "t0") 9 "t1"
    (by norm_num [mkTracked]) (by norm_num)

theorem invAt_of_seq_eq {tr1 tr2 : List (Nat × Status)} {id : Nat}
    {x : Option OrderInfo} (h : statusSeq id tr1 = statusSeq id tr2)
    (hx : InvAt tr2 id x) : InvAt tr1 id x := by
  cases x <;> simp only [InvAt] at hx ⊢ <;> rw [h] <;> exact hx

theorem inv_process (env : Env) (c : ClosedOrder) {m : Registry}
    {tr : List (Nat × Status)} (h : Inv m tr) :
    Inv (processClosedOrder env m c).1 (tr ++ (processClosedOrder env m c).2) := by
  cases hm : lookupEntry m c.orderId with
  | none =>
    have he : processClosedOrder env m c = (m, []) := by
      unfold processClosedOrder; rw [hm]
    rw [he, List.append_nil]
    exact h
  | some o =>
    have hc := h c.orderId
    rw [hm] at hc
    rcases hc with ⟨hst, hseq⟩ | ⟨hst, hseq⟩ | ⟨hst, hseq⟩
    · -- the stored order is pending
      by_cases hs : c.status = 2
      · by_cases hr : c.filledUsdt ≥ c.totalUsdt * (999/1000)
        · -- the fill branch fires
          have he : processClosedOrder env m c
              = (setEntry m c.orderId
                   (createReverseClearOrder env (markFilled o c.filledUsdt env.now)).1,
                 (c.orderId, .filled) ::
                   (createReverseClearOrder env (markFilled o c.filledUsdt env.now)).2.map
                     (fun s => (c.orderId, s))) := by
            unfold processClosedOrder; rw [hm]; simp [hst, hs, hr]
          rw [he]
          intro id
          by_cases hid : id = c.orderId
          · subst hid
            rw [lookupEntry_setEntry_self]
            rcases reverse_shape env (markFilled o c.filledUsdt env.now) with
              ⟨msg, hsh⟩ | ⟨o', hsh, hst'⟩
            · rw [hsh]
              refine Or.inr (Or.inr ⟨rfl, ?_⟩)
              rw [statusSeq_append, hseq, statusSeq_cons_self, statusSeq_map_self]
              rfl
            · rw [hsh]
              refine Or.inr (Or.inl ⟨hst', ?_⟩)
              rw [statusSeq_append, hseq, statusSeq_cons_self, statusSeq_map_self]
              rfl
          · rw [lookupEntry_setEntry_ne _ _ _ _ hid]
            refine invAt_of_seq_eq ?_ (h id)
            rw [statusSeq_append,
              statusSeq_cons_ne _ _ _ _ (fun hh => hid hh.symm),
              statusSeq_map_ne _ _ _ (fun hh => hid hh.symm), List.append_nil]
        · have he : processClosedOrder env m c = (m, []) := by
            unfold processClosedOrder; rw [hm]; simp [hst, hs, hr]
          rw [he, List.append_nil]; exact h
      · have he : processClosedOrder env m c = (m, []) := by
          unfold processClosedOrder; rw [hm]; simp [hst, hs]
        rw [he, List.append_nil]; exact h
    · -- the stored order is cleared: the `status !== 'pending'` guard skips it
      have he : processClosedOrder env m c = (m, []) := by
        unfold processClosedOrder; rw [hm]; simp [hst]
      rw [he, List.append_nil]; exact h
    · -- the stored order is in error state: likewise skipped
      have he : processClosedOrder env m c = (m, []) := by
        unfold processClosedOrder; rw [hm]; simp [hst]
      rw [he, List.append_nil]; exact h

theorem inv_update (cs : List (ClosedOrder × Env)) :
    ∀ {m : Registry} {tr : List (Nat × Status)}, Inv m tr →
      Inv (updateOrderStatus m cs).1 (tr ++ (updateOrderStatus m cs).2) := by
  induction cs with
  | nil =>
    intro m tr h
    rw [show updateOrderStatus m [] = (m, []) from rfl, List.append_nil]
    exact h
  | cons ce rest ih =>
    intro m tr h
    have h1 := inv_process ce.2 ce.1 h
    have h2 := ih h1
    have he : updateOrderStatus m (ce :: rest)
        = ((updateOrderStatus (processClosedOrder ce.2 m ce.1).1 rest).1,
           (processClosedOrder ce.2 m ce.1).2
             ++ (updateOrderStatus (processClosedOrder ce.2 m ce.1).1 rest).2) := rfl
    rw [he]
    rw [← List.append_assoc]
    exact h2

theorem inv_run (ops : List RegOp) :
    ∀ {m : Registry} {tr : List (Nat × Status)}, Inv m tr →
      wfOpsB m ops = true → Inv (runOps m ops).1 (tr ++ (runOps m ops).2) := by
  induction ops with
  | nil =>
    intro m tr h _
    rw [show runOps m [] = (m, []) from rfl, List.append_nil]
    exact h
  | cons op rest ih =>
    intro m tr h hwf
    simp only [wfOpsB, Bool.and_eq_true] at hwf
    obtain ⟨hwf1, hwf2⟩ := hwf
    have hstep : Inv (applyOp m op).1 (tr ++ (applyOp m op).2) := by
      cases op with
      | track p now =>
        have hnone : lookupEntry m p.orderId = none :=
          Option.isNone_iff_eq_none.mp hwf1
        intro j
        by_cases hid : j = p.orderId
        · rw [show (applyOp m (.track p now)).1
              = setEntry m p.orderId (mkTracked p now) from rfl,
            show (applyOp m (.track p now)).2 = [(p.orderId, .pending)] from rfl,
            hid, lookupEntry_setEntry_self]
          refine Or.inl ⟨rfl, ?_⟩
          have hemp : statusSeq p.orderId tr = [] := by
            have hj := h p.orderId
            rw [hnone] at hj
            exact hj
          rw [statusSeq_append, hemp, statusSeq_cons_self]
          rfl
        · rw [show (applyOp m (.track p now)).1
              = setEntry m p.orderId (mkTracked p now) from rfl,
            show (applyOp m (.track p now)).2 = [(p.orderId, .pending)] from rfl,
            lookupEntry_setEntry_ne _ _ _ _ hid]
          refine invAt_of_seq_eq ?_ (h j)
          rw [statusSeq_append, statusSeq_cons_ne _ _ _ _ (fun hh => hid hh.symm)]
          simp [statusSeq]
      | update cs => exact inv_update cs h
      | reverse oid env =>
        cases hm : lookupEntry m oid with
        | none =>
          have he : applyOp m (.reverse oid env) = (m, []) := by
            simp [applyOp, hm]
          rw [he, List.append_nil]
          exact h
        | some o =>
          exfalso
          have hwf1' : (match lookupEntry m oid with
              | none => true
              | some o => decide (o.status = .filled)) = true := hwf1
          rw [hm] at hwf1'
          have hfill : o.status = .filled := of_decide_eq_true hwf1'
          have hc := h oid
          rw [hm] at hc
          rcases hc with ⟨hst, _⟩ | ⟨hst, _⟩ | ⟨hst, _⟩ <;>
            rw [hst] at hfill <;> exact Status.noConfusion hfill
      | read =>
        rw [show applyOp m .read = (m, []) from rfl, List.append_nil]
        exact h
    have h2 := ih hstep hwf2
    have he : runOps m (op :: rest)
        = ((runOps (applyOp m op).1 rest).1,
           (applyOp m op).2 ++ (runOps (applyOp m op).1 rest).2) := rfl
    rw [he]
    rw [← List.append_assoc]
    exact h2

/-- C2 counterexample: the operation sequence `cexOps` — track order 1, let it
fill and auto-clear, then call `trackOrder` again with orderId 1 — produces
the status history `[pending, filled, clearing, cleared, pending]` for
order 1: the `cleared → pending` step moves backward and leaves the terminal
state, violating the claimed state-machine discipline for sequences of public
registry operations. -/
theorem status_forward_counterexample :
    goodSeqB (statusSeq 1 (runOps [] cexOps).2) = false := by
  norm_num [cexOps, wEnv, runOps, applyOp, updateOrderStatus, processClosedOrder,
    trackOrder, mkTracked, setEntry, lookupEntry, createReverseClearOrder,
    sharesInvalid, errorOut, markFilled, statusSeq, List.filterMap, goodSeqB,
    forwardB, terminalLastB, clearedAfterClearingB, clearedAfterClearingAux, rank]

/-- C2 amended: for every sequence of public registry operations in which
`trackOrder` is only called with orderIds not currently tracked and
`createReverseClearOrder` is only invoked directly on tracked orders in the
`filled` state (as `updateOrderStatus` does), every order's status history
moves only forward along pending → filled → clearing → {cleared, error},
`cleared` and `error` are terminal (nothing is assigned after them), and
`cleared` is always preceded by `clearing`. -/
theorem status_forward_amended (ops : List RegOp) (h : wfOpsB [] ops = true)
    (id : Nat) : goodSeqB (statusSeq id (runOps [] ops).2) = true := by
  have h0 : Inv ([] : Registry) [] := by
    intro i
    simp [InvAt, lookupEntry, statusSeq]
  have hinv := inv_run ops h0 h
  rw [List.nil_append] at hinv
  have hi := hinv id
  cases hl : lookupEntry (runOps [] ops).1 id with
  | none =>
    rw [hl] at hi
    simp only [InvAt] at hi
    rw [hi]
    rfl
  | some o =>
    rw [hl] at hi
    rcases hi with ⟨_, hseq⟩ | ⟨_, hseq⟩ | ⟨_, hseq⟩ <;> rw [hseq] <;> rfl

/-- C2 amended, witness: the well-formed run `wfOps2` (track a fresh order,
then reconcile its full fill) yields a lawful status history for order 1. -/
theorem status_forward_witness :
    goodSeqB (statusSeq 1 (runOps [] wfOps2).2) = true :=
  status_forward_amended wfOps2 rfl 1

/-- C8: whenever a reverse-clearing attempt on a tracked order fails (its
final status is `error` — the `catch` ran, for no-safe-price, book-fetch
error, invalid share count or exchange rejection), the resulting record has a
non-null `errorMessage` while `reverseOrderId`, `reversePrice`,
`reverseShares` and `clearedAt` keep their pre-attempt values, and the
registry operation persists exactly the updated registry. -/
theorem reverseClear_failure_no_partial_effects (env : Env) (m : Registry)
    (oid : Nat) (o : OrderInfo) (hm : lookupEntry m oid = some o)
    (herr : (createReverseClearOrder env o).1.status = .error) :
    (createReverseClearOrder env o).1.errorMessage.isSome = true
    ∧ (createReverseClearOrder env o).1.reverseOrderId = o.reverseOrderId
    ∧ (createReverseClearOrder env o).1.reversePrice = o.reversePrice
    ∧ (createReverseClearOrder env o).1.reverseShares = o.reverseShares
    ∧ (createReverseClearOrder env o).1.clearedAt = o.clearedAt
    ∧ reverseClearOp env m oid
        = (setEntry m oid (createReverseClearOrder env o).1,
           saveDoc (setEntry m oid (createReverseClearOrder env o).1)) := by
  rcases reverse_shape env o with ⟨msg, hsh⟩ | ⟨o', hsh, hst⟩
  · rw [hsh]
    refine ⟨?_, ?_, ?_, ?_, ?_, ?_⟩
    · simp [errorOut]
    · simp [errorOut]
    · simp [errorOut]
    · simp [errorOut]
    · simp [errorOut]
    · simp [reverseClearOp, hm, hsh]
  · rw [hsh] at herr
    simp only at herr
    rw [hst] at herr
    exact absurd herr (by simp)

/-- C8 witness: a direct clearing attempt on a buy order with no recorded
filled shares fails, sets an error message, and leaves the reverse-order
fields untouched. -/
theorem reverseClear_failure_witness :
    (createReverseClearOrder wEnv wFailOrder).1.errorMessage.isSome = true
    ∧ (createReverseClearOrder wEnv wFailOrder).1.reverseOrderId
        = wFailOrder.reverseOrderId
    ∧ (createReverseClearOrder wEnv wFailOrder).1.reversePrice
        = wFailOrder.reversePrice
    ∧ (createReverseClearOrder wEnv wFailOrder).1.reverseShares
        = wFailOrder.reverseShares
    ∧ (createReverseClearOrder wEnv wFailOrder).1.clearedAt = wFailOrder.clearedAt
    ∧ reverseClearOp wEnv [(3, wFailOrder)] 3
        = (setEntry [(3, wFailOrder)] 3 (createReverseClearOrder wEnv wFailOrder).1,
           saveDoc (setEntry [(3, wFailOrder)] 3
             (createReverseClearOrder wEnv wFailOrder).1)) :=
  reverseClear_failure_no_partial_effects wEnv [(3, wFailOrder)] 3 wFailOrder rfl rfl

/-- C5 counterexample: a closed order whose exchange status is 6 (failed)
rather than 2, with `filled = "10/10"` (ratio 1 ≥ 0.999), matching a pending
tracked order: the claim requires the order to be marked `filled`, but the
code's `status === 2` guard leaves the tracked order pending and unchanged. -/
theorem updateOrderStatus_status6_counterexample :
    updateOrderStatus [(5, wOrder)] [(⟨5, 6, 10, 10⟩, wEnv)] = ([(5, wOrder)], [])
    ∧ ((10:ℚ) ≥ 10 * (999/1000))
    ∧ wOrder.status = .pending := by
  refine ⟨?_, by norm_num, rfl⟩
  rfl

/-- C5 amended: for every closed order whose `status` field equals 2 and whose
orderId matches a `pending` tracked order, `updateOrderStatus` parses
`filled` as `filledUsdt/totalUsdt`; if `filledUsdt ≥ totalUsdt × 0.999` it
marks the record `filled` with `filledShares = filledUsdt / (costPrice/100)`
and `filledUsdt`, and hands the marked record to `createReverseClearOrder`;
otherwise it leaves the registry (hence the tracked order) unchanged. -/
theorem updateOrderStatus_fill_amended (env : Env) (m : Registry)
    (c : ClosedOrder) (o : OrderInfo) (hm : lookupEntry m c.orderId = some o)
    (hp : o.status = .pending) (hs : c.status = 2) :
    (c.filledUsdt ≥ c.totalUsdt * (999/1000) →
      updateOrderStatus m [(c, env)]
        = (setEntry m c.orderId
             (createReverseClearOrder env (markFilled o c.filledUsdt env.now)).1,
           (c.orderId, .filled) ::
             (createReverseClearOrder env (markFilled o c.filledUsdt env.now)).2.map
               (fun s => (c.orderId, s)))
      ∧ (markFilled o c.filledUsdt env.now).status = .filled
      ∧ (markFilled o c.filledUsdt env.now).filledShares
          = some (c.filledUsdt / (o.price / 100))
      ∧ (markFilled o c.filledUsdt env.now).filledUsdt = some c.filledUsdt)
    ∧ (¬ c.filledUsdt ≥ c.totalUsdt * (999/1000) →
      updateOrderStatus m [(c, env)] = (m, [])) := by
  constructor
  · intro hge
    refine ⟨?_, rfl, rfl, rfl⟩
    have hpr : processClosedOrder env m c
        = (setEntry m c.orderId
             (createReverseClearOrder env (markFilled o c.filledUsdt env.now)).1,
           (c.orderId, .filled) ::
             (createReverseClearOrder env (markFilled o c.filledUsdt env.now)).2.map
               (fun s => (c.orderId, s))) := by
      unfold processClosedOrder
      rw [hm]
      simp [hp, hs, hge]
    simp [updateOrderStatus, hpr]
  · intro hlt
    have hpr : processClosedOrder env m c = (m, []) := by
      unfold processClosedOrder
      rw [hm]
      simp [hp, hs, hlt]
    simp [updateOrderStatus, hpr]

/-- C5 witness: a pending tracked order at cost 90.00 whose closed order
reports `filled = "10/10"` is marked filled with 10/0.9 shares and handed to
the clearing step. -/
theorem updateOrderStatus_fill_witness :
    updateOrderStatus [(5, wOrder)] [(wClosed, wEnv)]
        = (setEntry [(5, wOrder)] 5
             (createReverseClearOrder wEnv (markFilled wOrder 10 "t1")).1,
           (5, .filled) ::
             (createReverseClearOrder wEnv (markFilled wOrder 10 "t1")).2.map
               (fun s => (5, s)))
    ∧ (markFilled wOrder 10 "t1").status = .filled
    ∧ (markFilled wOrder 10 "t1").filledShares = some (10 / (90 / 100))
    ∧ (markFilled wOrder 10 "t1").filledUsdt = some 10 :=
  (updateOrderStatus_fill_amended wEnv [(5, wOrder)] wClosed wOrder rfl rfl rfl).1
    (by norm_num [wClosed])

/-- C7 counterexample: an order with `amount = 1`, `filled = 0.98996` that
disappears from the snapshot.  The raw ratio 0.98996 is below the 0.99
tolerance, so the claim classifies it as removed; but the code compares the
`toFixed(4)`-rounded values (0.9900 ≥ 0.99) and emits `order_filled`. -/
theorem differ_tolerance_counterexample :
    (detectOrderChanges [(1, ⟨1, 1, "YES", 1/2, 1, some (98996/100000)⟩)] []).1
        = [.order_filled 1]
    ∧ ¬ ((98996/100000 : ℚ) ≥ 1 * (99/100)) := by
  constructor
  · norm_num [detectOrderChanges, buildOrdersMap, lookupEntry, classifyRemoval,
      roundTo, List.filterMap_cons, List.filterMap_nil]
  · norm_num

/-- C7 amended: for every entry of the previous map whose orderId is absent
from the current map, the differ emits exactly its `classifyRemoval` event,
which is `order_filled` iff the `toFixed(4)`-rounded fill is at least the
`toFixed(4)`-rounded amount times 0.99, and `order_removed` otherwise; in
particular a removal with `filled/amount = 0.989` is classified removed and
one with `0.995` fully filled (both are exact at 4 decimals, so the rounding
does not disturb them). -/
theorem differ_classification_amended (prevMap : List (Nat × OpenOrder))
    (cur : List OpenOrder) (i : Nat) (o : OpenOrder)
    (hp : (i, o) ∈ prevMap)
    (hc : lookupEntry (buildOrdersMap cur) i = none) :
    classifyRemoval i o ∈ (detectOrderChanges prevMap cur).1
    ∧ (classifyRemoval i o = .order_filled i
        ↔ roundTo 4 (o.filled.getD 0) ≥ roundTo 4 o.amount * (99/100))
    ∧ (¬ roundTo 4 (o.filled.getD 0) ≥ roundTo 4 o.amount * (99/100) →
        classifyRemoval i o = .order_removed i)
    ∧ classifyRemoval 9 ⟨9, 1, "YES", 1/2, 1, some (989/1000)⟩ = .order_removed 9
    ∧ classifyRemoval 9 ⟨9, 1, "YES", 1/2, 1, some (995/1000)⟩ = .order_filled 9 := by
  refine ⟨?_, ?_, ?_, ?_, ?_⟩
  · apply List.mem_append_left
    apply List.mem_filterMap.mpr
    refine ⟨(i, o), hp, ?_⟩
    rw [hc]
  · unfold classifyRemoval
    by_cases hcond : roundTo 4 (o.filled.getD 0) ≥ roundTo 4 o.amount * (99/100)
    · rw [if_pos hcond]
      exact iff_of_true rfl hcond
    · rw [if_neg hcond]
      exact iff_of_false (fun hh => OrderEvent.noConfusion hh) hcond
  · intro hcond
    unfold classifyRemoval
    rw [if_neg hcond]
  · norm_num [classifyRemoval, roundTo]
  · norm_num [classifyRemoval, roundTo]

/-- C7 amended, witness: a vanished order with `filled = 0.989`, `amount = 1`
is classified by the rounded comparison and its event is emitted. -/
theorem differ_classification_witness :
    classifyRemoval 7 ⟨7, 1, "YES", 1/2, 1, some (989/1000)⟩
        ∈ (detectOrderChanges [(7, ⟨7, 1, "YES", 1/2, 1, some (989/1000)⟩)] []).1
    ∧ (classifyRemoval 7 ⟨7, 1, "YES", 1/2, 1, some (989/1000)⟩ = .order_filled 7
        ↔ roundTo 4 ((989:ℚ)/1000) ≥ roundTo 4 (1:ℚ) * (99/100))
    ∧ (¬ roundTo 4 ((989:ℚ)/1000) ≥ roundTo 4 (1:ℚ) * (99/100) →
        classifyRemoval 7 ⟨7, 1, "YES", 1/2, 1, some (989/1000)⟩ = .order_removed 7)
    ∧ classifyRemoval 9 ⟨9, 1, "YES", 1/2, 1, some (989/1000)⟩ = .order_removed 9
    ∧ classifyRemoval 9 ⟨9, 1, "YES", 1/2, 1, some (995/1000)⟩ = .order_filled 9 :=
  differ_classification_amended [(7, ⟨7, 1, "YES", 1/2, 1, some (989/1000)⟩)] []
    7 ⟨7, 1, "YES", 1/2, 1, some (989/1000)⟩ (List.mem_singleton.mpr rfl) rfl

theorem setEntry_of_lookup_none {α : Type} (acc : List (Nat × α)) (k : Nat)
    (v : α) (h : lookupEntry acc k = none) : setEntry acc k v = acc ++ [(k, v)] := by
  induction acc with
  | nil => rfl
  | cons kv rest ih =>
    obtain ⟨k', v'⟩ := kv
    by_cases hk : k' = k
    · rw [lookupEntry, if_pos hk] at h
      exact absurd h (by simp)
    · rw [lookupEntry, if_neg hk] at h
      rw [setEntry, if_neg hk, ih h]
      rfl

theorem lookupEntry_append_of_none {α : Type} (l1 l2 : List (Nat × α)) (k : Nat)
    (h : lookupEntry l1 k = none) :
    lookupEntry (l1 ++ l2) k = lookupEntry l2 k := by
  induction l1 with
  | nil => rfl
  | cons kv rest ih =>
    obtain ⟨k', v'⟩ := kv
    by_cases hk : k' = k
    · rw [lookupEntry, if_pos hk] at h
      exact absurd h (by simp)
    · rw [lookupEntry, if_neg hk] at h
      rw [List.cons_append, lookupEntry, if_neg hk, ih h]

theorem foldl_setEntry_eq_append {α : Type} :
    ∀ (l acc : List (Nat × α)),
      (∀ k ∈ l.map Prod.fst, lookupEntry acc k = none) →
      (l.map Prod.fst).Nodup →
      l.foldl (fun mp kv => setEntry mp kv.1 kv.2) acc = acc ++ l := by
  intro l
  induction l with
  | nil => intro acc _ _; simp
  | cons kv rest ih =>
    intro acc hfresh hnd
    obtain ⟨k, v⟩ := kv
    rw [List.map_cons, List.nodup_cons] at hnd
    have hk : lookupEntry acc k = none := hfresh k (by simp)
    rw [List.foldl_cons]
    rw [show setEntry acc k v = acc ++ [(k, v)] from setEntry_of_lookup_none acc k v hk]
    rw [ih (acc ++ [(k, v)]) ?_ hnd.2]
    · simp
    · intro k' hk'
      rw [lookupEntry_append_of_none _ _ _ (hfresh k' (by simp [hk']))]
      have hne : k ≠ k' := fun hh => hnd.1 (hh ▸ hk')
      rw [lookupEntry, if_neg hne]
      rfl

theorem lookupEntry_perm {α : Type} {l₁ l₂ : List (Nat × α)} (hp : l₁.Perm l₂)
    (hnd : (l₁.map Prod.fst).Nodup) (k : Nat) :
    lookupEntry l₁ k = lookupEntry l₂ k := by
  induction hp with
  | nil => rfl
  | cons a hh ih =>
    obtain ⟨a1, a2⟩ := a
    rw [List.map_cons, List.nodup_cons] at hnd
    by_cases hk : a1 = k
    · rw [lookupEntry, if_pos hk, lookupEntry, if_pos hk]
    · rw [lookupEntry, if_neg hk, lookupEntry, if_neg hk, ih hnd.2]
  | swap x y l =>
    obtain ⟨x1, x2⟩ := x
    obtain ⟨y1, y2⟩ := y
    rw [List.map_cons, List.map_cons, List.nodup_cons, List.nodup_cons] at hnd
    have hxy : y1 ≠ x1 := fun hh => hnd.1 (by simp [hh])
    by_cases h1 : y1 = k
    · rw [lookupEntry, if_pos h1, lookupEntry,
        if_neg (fun hh => hxy (h1.trans hh.symm)), lookupEntry, if_pos h1]
    · by_cases h2 : x1 = k
      · rw [lookupEntry, if_neg h1, lookupEntry, if_pos h2, lookupEntry, if_pos h2]
      · rw [lookupEntry, if_neg h1, lookupEntry, if_neg h2, lookupEntry, if_neg h2,
          lookupEntry, if_neg h1]
  | trans h₁ h₂ ih₁ ih₂ =>
    rw [ih₁ hnd, ih₂ (((h₁.map Prod.fst).nodup_iff).mp hnd)]

theorem loadDoc_digits (l : Registry) :
    loadDoc (l.map (fun kv => (Nat.digits 10 kv.1, kv.2)))
      = l.foldl (fun acc kv => setEntry acc kv.1 kv.2) [] := by
  unfold loadDoc
  rw [List.foldl_map]
  simp only [Nat.ofDigits_digits]

/-- C9: for every registry with unique orderIds, saving to the persistence
document and loading it back reproduces every tracked order exactly
(`lookupEntry` agrees on every key — the numeral key `String(orderId)` parses
back to the same orderId), and `save ∘ load ∘ save = save`: the stored
document is a fixed point. -/
theorem save_load_roundtrip (m : Registry) (h : (m.map Prod.fst).Nodup) :
    (∀ k, lookupEntry (loadDoc (saveDoc m)) k = lookupEntry m k)
    ∧ saveDoc (loadDoc (saveDoc m)) = saveDoc m := by
  have hperm : (sortByKey m).Perm m := List.perm_insertionSort keyLe m
  have hnd : ((sortByKey m).map Prod.fst).Nodup :=
    ((hperm.map Prod.fst).nodup_iff).mpr h
  have hload : loadDoc (saveDoc m) = sortByKey m := by
    unfold saveDoc
    rw [loadDoc_digits]
    rw [foldl_setEntry_eq_append (sortByKey m) [] (fun k _ => rfl) hnd]
    rfl
  refine ⟨?_, ?_⟩
  · intro k
    rw [hload]
    exact lookupEntry_perm hperm hnd k
  · rw [hload]
    unfold saveDoc
    congr 1
    unfold sortByKey
    exact (List.sorted_insertionSort keyLe m).insertionSort_eq

/-- C9 witness: a registry holding orders 12 and 3 survives the save/load
round trip, and re-saving reproduces the document. -/
theorem save_load_roundtrip_witness :
    (∀ k, lookupEntry (loadDoc (saveDoc [(12, wOrder), (3, wFailOrder)])) k
        = lookupEntry [(12, wOrder), (3, wFailOrder)] k)
    ∧ saveDoc (loadDoc (saveDoc [(12, wOrder), (3, wFailOrder)]))
        = saveDoc [(12, wOrder), (3, wFailOrder)] :=
  save_load_roundtrip [(12, wOrder), (3, wFailOrder)] (by simp)

end OpinionPanel
